import Mathlib

/-!
Shallow embedding of the partitioned-output streaming pipeline driver
`main` in `rucio_consistency/scripts/db_dump.py`.

Python string operations are modelled on the character lists underlying
Lean strings: `path.startswith(pre)` is prefix of the char list,
`s.endswith(suf)` is suffix, and substring containment (`in`) is infix.
-/

/-- One replica row as read from the row source; only the fields the driver
loop touches (`scope`, `name`, `path`, `state`, db_dump.py:153-159). -/
structure Record where
  scope : String
  name : String
  path : String
  state : String
deriving DecidableEq

/-- Model of Python `path.startswith(pre)`. -/
def pyStartswith (path pre : String) : Bool := decide (pre.data <+: path.data)

/-- Model of Python `s.endswith(suf)`. -/
def pyEndswith (s suf : String) : Bool := decide (suf.data <:+ s.data)

/-- Normalization of the configured subdirectory root: a trailing slash is
appended when absent (db_dump.py:171-172). -/
def normSubdir (s : String) : String := if pyEndswith s "/" then s else s ++ "/"

/-- Normalization of a root before prefix matching (db_dump.py:236). -/
def rootPfx (root : String) : String := if pyEndswith root "/" then root else root ++ "/"

/-- Key set of a Python dict comprehension: duplicates collapse onto their
first occurrence (db_dump.py:217). -/
def dedupKeys (l : List String) : List String :=
  l.foldl (fun acc x => if acc.contains x then acc else acc ++ [x]) []

/-- Run configuration as assembled by `main` before the loop: RSE name,
raw subdirectory root, ignore list, root list, the `-f` filter declarations
(state-spec, output path), long-output flag, optional accepted-count cap
(`-m`, 0 parsed as no cap), whether a stats sink (`-s`) and a root-count
destination (`-r`) are configured. -/
structure RunCfg where
  rseName : String
  subdirRaw : String
  ignoreList : List String
  rootList : List String
  filters : List (String × String)
  longOutput : Bool
  stopAfter : Option Nat
  statsConfigured : Bool
  rootCountsConfigured : Bool
deriving DecidableEq

/-- The normalized subdirectory used by the loop. -/
def RunCfg.subdir (cfg : RunCfg) : String := normSubdir cfg.subdirRaw

/-- Mutable loop state of the driver: directory set `dirs`, accepted count
`ntotal`, `ignored_files`, the ordered `root_file_counts` mapping and, for
each output group keyed by its state-spec, the lines added so far. -/
structure LoopState where
  dirs : List String
  ntotal : Nat
  ignored_files : Nat
  rootCounts : List (String × Nat)
  outputs : List (String × List String)
deriving DecidableEq

/-- The root loop of db_dump.py:235-240: walk the ordered counts mapping,
increment the first root whose normalized form prefixes `path`, return the
matched root (if any) together with the updated mapping. -/
def updateRoots (path : String) : List (String × Nat) → Option String × List (String × Nat)
  | [] => (none, [])
  | (root, cnt) :: rest =>
    if pyStartswith path (rootPfx root) then (some root, (root, cnt + 1) :: rest)
    else
      let res := updateRoots path rest
      (res.1, (root, cnt) :: res.2)

/-- Python truthiness of `matched_root` at db_dump.py:242: `None` and the
empty string are falsy. -/
def truthyRoot : Option String → Bool
  | none => false
  | some r => !(r == "")

/-- Python `path or "null"` (db_dump.py:255,257). -/
def orNull (s : String) : String := if s == "" then "null" else s

/-- The line emitted for an accepted record (db_dump.py:254-257); the routing
path variable is the record's `name` column (db_dump.py:219). -/
def formatLine (longOutput : Bool) (rse : String) (r : Record) : String :=
  if longOutput then
    rse ++ "\t" ++ r.scope ++ "\t" ++ r.name ++ "\t" ++ orNull r.name ++ "\t" ++ r.state
  else orNull r.name

/-- Group acceptance test `state in s or s == '*'` (db_dump.py:253). -/
def stateMatches (state spec : String) : Bool :=
  decide (state.data <:+: spec.data) || spec == "*"

/-- Parent directory of a path, Python `path.rsplit("/", 1)`: everything
before the last separator, with the no-separator fallback `"/"`
(db_dump.py:245-249). -/
def dirOf (path : String) : String :=
  if path.data.contains '/' then
    String.mk (((path.data.reverse.dropWhile (fun c => c ≠ '/')).drop 1).reverse)
  else "/"

/-- Set insertion into the directory set (db_dump.py:250). -/
def addDir (dirs : List String) (d : String) : List String :=
  if dirs.contains d then dirs else dirs ++ [d]

/-- The optional path-pattern filter check (db_dump.py:225-227); `main`
hardcodes the pattern to `None` (db_dump.py:213). -/
def filterPass (fre : Option (String → Bool)) (path : String) : Bool :=
  match fre with
  | some f => f path
  | none => true

/-- One iteration of the driver loop body (db_dump.py:218-261) on one record:
returns the updated state and whether the accepted-count cap fired (`break`). -/
def processRecord (fre : Option (String → Bool)) (cfg : RunCfg) (st : LoopState)
    (r : Record) : LoopState × Bool :=
  let path := r.name
  if !(pyStartswith path cfg.subdir) then (st, false)
  else if !(filterPass fre path) then (st, false)
  else if cfg.ignoreList.any (fun pre => pyStartswith path pre) then
    ({ st with ignored_files := st.ignored_files + 1 }, false)
  else
    let rr := updateRoots path st.rootCounts
    let st1 := { st with rootCounts := rr.2 }
    if !(truthyRoot rr.1) then (st1, false)
    else
      let line := formatLine cfg.longOutput cfg.rseName r
      let st2 := { st1 with
        dirs := addDir st1.dirs (dirOf path),
        outputs := st1.outputs.map (fun g =>
          if stateMatches r.state g.1 then (g.1, g.2 ++ [line]) else g),
        ntotal := st1.ntotal + 1 }
      (st2, match cfg.stopAfter with
            | some k => decide (k ≤ st2.ntotal)
            | none => false)

/-- The driver loop (db_dump.py:218-261) over a record stream: returns the
final state, the number of records consumed, and whether the cap `break`
fired. -/
def runLoop (fre : Option (String → Bool)) (cfg : RunCfg) :
    LoopState → List Record → LoopState × Nat × Bool
  | st, [] => (st, 0, false)
  | st, r :: rs =>
    let res := processRecord fre cfg st r
    if res.2 then (res.1, 1, true)
    else
      let rest := runLoop fre cfg res.1 rs
      (rest.1, rest.2.1 + 1, rest.2.2)

/-- Loop state at entry of the loop: empty directory set, zero counters, the
root counts initialized from the configured root list (db_dump.py:211-217)
and one empty output per `-f` group (db_dump.py:198-200). -/
def initState (cfg : RunCfg) : LoopState :=
  { dirs := []
    ntotal := 0
    ignored_files := 0
    rootCounts := (dedupKeys cfg.rootList).map (fun root => (root, 0))
    outputs := cfg.filters.map (fun f => (f.1, [])) }

/-- Lexicographic less-or-equal on code-point lists, the order Python uses
to compare strings (and hence the `sort_keys=True` order). -/
def charListLe : List Char → List Char → Bool
  | [], _ => true
  | _ :: _, [] => false
  | a :: as, b :: bs =>
    if a < b then true else if b < a then false else charListLe as bs

/-- Key comparison used for the sorted root-count report. -/
def keyLe (a b : String × Nat) : Bool := charListLe a.1.data b.1.data

/-- Sorted-insert of one root-count entry by key. -/
def insertSorted (p : String × Nat) : List (String × Nat) → List (String × Nat)
  | [] => [p]
  | q :: qs => if keyLe p q then p :: q :: qs else q :: insertSorted p qs

/-- Key-sorted root-count report, modelling `json.dumps(..., sort_keys=True)`
(db_dump.py:293). -/
def sortByKey (l : List (String × Nat)) : List (String × Nat) :=
  l.foldr insertSorted []

/-- Python `s.split(sep)` for a one-character separator, on code-point
lists: the result always has one more part than there are separators, and
in particular is never empty. -/
def splitOnChar (c : Char) : List Char → List (List Char)
  | [] => [[]]
  | x :: xs =>
    match splitOnChar c xs with
    | [] => [[]]
    | h :: t => if x = c then [] :: h :: t else (x :: h) :: t

/-- The captured textual trace: `traceback.format_exc().split("\n")`
(db_dump.py:271). -/
def traceLines (trace : String) : List String :=
  (splitOnChar '\n' trace.data).map String.mk

/-- One `stats.update_section` payload. Time-valued entries (`start_time`,
`end_time`, `elapsed`) are modelled as booleans recording whether a non-null
value was written; entries whose value is Python `None` or whose key is
absent from a given update are both modelled as `none`. -/
structure StatsUpdate where
  status : String
  version : Option String
  rse : Option String
  startTimeSet : Bool
  endTimeSet : Bool
  files : Option Nat
  elapsedSet : Bool
  directories : Option Nat
  exception : Option (List String)
  ignoredFiles : Option Nat
  ignoreListEcho : Option (List String)
deriving DecidableEq

/-- The initial `status=started` update (db_dump.py:133-146). -/
def startedStats (cfg : RunCfg) : StatsUpdate :=
  { status := "started", version := some "2.0", rse := some cfg.rseName
    startTimeSet := true, endTimeSet := false, files := none, elapsedSet := false
    directories := none, exception := some [], ignoredFiles := some 0
    ignoreListEcho := none }

/-- The `status=failed` update written by the `except` block
(db_dump.py:270-279); `trace` is the formatted traceback of the fault. -/
def failedStats (cfg : RunCfg) (trace : String) : StatsUpdate :=
  { status := "failed", version := none, rse := none
    startTimeSet := false, endTimeSet := true, files := none, elapsedSet := false
    directories := none, exception := some (traceLines trace)
    ignoredFiles := none, ignoreListEcho := some cfg.ignoreList }

/-- The `status=done` update written by the `else` block (db_dump.py:282-291). -/
def doneStats (cfg : RunCfg) (st : LoopState) : StatsUpdate :=
  { status := "done", version := none, rse := none
    startTimeSet := false, endTimeSet := true, files := some st.ntotal
    elapsedSet := true, directories := some st.dirs.length, exception := none
    ignoredFiles := some st.ignored_files, ignoreListEcho := some cfg.ignoreList }

/-- Where an injected unhandled fault strikes: nowhere; inside the `try`
block during INIT before `ignore_list = config.IgnoreList` (db_dump.py:175)
is executed; during INIT after it (e.g. engine creation, writer
construction); or while the row iterator produces the record of index `i`
(0-based) during RUNNING. -/
inductive FaultSpec where
  | noFault
  | initBeforeIgnoreList
  | initAfterIgnoreList
  | runningAt (i : Nat)
deriving DecidableEq

/-- What reaches the caller when `main` terminates abnormally: the original
fault re-raised by the bare `raise` (db_dump.py:280), or the `NameError`
raised inside the `except` block itself when it reads the still-unbound
`ignore_list` variable (db_dump.py:278). -/
inductive Raised where
  | origFault
  | nameError
deriving DecidableEq

/-- Observable outcome of one invocation of `main` past stats
initialization: the sequence of stats-sink updates, whether `close()` was
invoked on the Partitioned Output Sets (db_dump.py:262-263), the optional
sorted root-count report (db_dump.py:292-294), what fault (if any)
propagates to the caller, the final loop state on normal termination, and
how many records were consumed and whether the cap `break` fired. -/
structure RunOutcome where
  statsUpdates : List StatsUpdate
  outputsClosed : Bool
  rootReport : Option (List (String × Nat))
  raised : Option Raised
  finalState : Option LoopState
  consumed : Nat
  broke : Bool
deriving DecidableEq

/-- Normal-termination outcome: writers closed, `status=done` update when a
stats sink is configured, sorted root report when a destination is
configured (db_dump.py:262-294). -/
def successOutcome (cfg : RunCfg) (pre : List StatsUpdate)
    (res : LoopState × Nat × Bool) : RunOutcome :=
  { statsUpdates := pre ++ (if cfg.statsConfigured then [doneStats cfg res.1] else [])
    outputsClosed := true
    rootReport := if cfg.rootCountsConfigured then some (sortByKey res.1.rootCounts) else none
    raised := none
    finalState := some res.1
    consumed := res.2.1
    broke := res.2.2 }

/-- The whole of `main` past stats initialization (db_dump.py:148-294): the
`try` body normalizes the subdirectory, builds the output sets and runs the
loop with the pattern filter hardcoded off (db_dump.py:213); the `except`
block writes the `failed` update — raising `NameError` instead if
`ignore_list` is not yet bound — and re-raises; the `else` block writes the
`done` update and the root report. A `runningAt i` fault fires only if the
loop actually asks the row source for record `i`. -/
def runMain (cfg : RunCfg) (records : List Record) (fault : FaultSpec)
    (trace : String) : RunOutcome :=
  let pre := if cfg.statsConfigured then [startedStats cfg] else []
  match fault with
  | .noFault =>
      successOutcome cfg pre (runLoop none cfg (initState cfg) records)
  | .initBeforeIgnoreList =>
      { statsUpdates := pre
        outputsClosed := false
        rootReport := none
        raised := some (if cfg.statsConfigured then .nameError else .origFault)
        finalState := none
        consumed := 0
        broke := false }
  | .initAfterIgnoreList =>
      { statsUpdates := pre ++ (if cfg.statsConfigured then [failedStats cfg trace] else [])
        outputsClosed := false
        rootReport := none
        raised := some .origFault
        finalState := none
        consumed := 0
        broke := false }
  | .runningAt i =>
      let res := runLoop none cfg (initState cfg) (records.take i)
      if res.2.2 || records.length < i then
        successOutcome cfg pre (runLoop none cfg (initState cfg) records)
      else
        { statsUpdates := pre ++ (if cfg.statsConfigured then [failedStats cfg trace] else [])
          outputsClosed := false
          rootReport := none
          raised := some .origFault
          finalState := none
          consumed := i
          broke := false }

/-- The first configured root whose normalized form prefixes `path`
(declaration order), as a predicate on the key list alone. -/
def firstRootMatch (roots : List String) (path : String) : Option String :=
  roots.find? (fun root => pyStartswith path (rootPfx root))

/-- A path is accepted (reaches db_dump.py:245) iff it survives the
subdirectory check, the optional pattern filter, the ignore list, and is
truthily matched by some root; `roots` is the key list of
`root_file_counts`, which the loop never changes. -/
def acceptsPath (fre : Option (String → Bool)) (cfg : RunCfg) (roots : List String)
    (path : String) : Bool :=
  pyStartswith path cfg.subdir && filterPass fre path &&
    !(cfg.ignoreList.any (fun pre => pyStartswith path pre)) &&
    truthyRoot (firstRootMatch roots path)

/-- A record is accepted iff its `name` column is an accepted path. -/
def acceptsRec (fre : Option (String → Bool)) (cfg : RunCfg) (roots : List String)
    (r : Record) : Bool :=
  acceptsPath fre cfg roots r.name

/-- Accepted-record count of a record stream. -/
def countAccepted (fre : Option (String → Bool)) (cfg : RunCfg) (roots : List String)
    (l : List Record) : Nat :=
  l.countP (acceptsRec fre cfg roots)

/-- The lines an output group with state-spec `spec` receives from a record
stream: one formatted line per accepted record whose state matches. -/
def emitted (fre : Option (String → Bool)) (cfg : RunCfg) (roots : List String)
    (spec : String) (l : List Record) : List String :=
  (l.filter (fun r => acceptsRec fre cfg roots r && stateMatches r.state spec)).map
    (formatLine cfg.longOutput cfg.rseName)

/-- Concrete configuration used to instantiate hypotheses: subdirectory
`/a`, one ignore prefix, two overlapping roots, two output groups, cap 1. -/
def cfgT : RunCfg :=
  { rseName := "X", subdirRaw := "/a", ignoreList := ["/a/skip"]
    rootList := ["/a", "/a/b"], filters := [("AC", "/o1"), ("*", "/o2")]
    longOutput := false, stopAfter := some 1, statsConfigured := true
    rootCountsConfigured := true }

/-- A concrete record with the given name and state. -/
def recT (n s : String) : Record := ⟨"sc", n, "pp", s⟩

/-- The root loop never changes the key sequence of the counts mapping. -/
theorem updateRoots_keys (path : String) (l : List (String × Nat)) :
    ((updateRoots path l).2).map Prod.fst = l.map Prod.fst := by
  induction l with
  | nil => rfl
  | cons p rest ih =>
    obtain ⟨root, cnt⟩ := p
    cases hc : pyStartswith path (rootPfx root) <;> simp [updateRoots, hc, ih]

/-- The matched root returned by the root loop is the first key whose
normalized form prefixes the path. -/
theorem updateRoots_matched (path : String) (l : List (String × Nat)) :
    (updateRoots path l).1 = firstRootMatch (l.map Prod.fst) path := by
  rw [firstRootMatch, List.find?_map]
  induction l with
  | nil => rfl
  | cons p rest ih =>
    obtain ⟨root, cnt⟩ := p
    cases hc : pyStartswith path (rootPfx root) <;>
      simp [updateRoots, hc, ih, List.find?, Function.comp]

/-- First-match-wins shape of the root loop: with no match in `pre` and a
match at `q`, exactly `q`'s counter is incremented and everything after is
untouched. -/
theorem updateRoots_firstMatch (path : String) (pre : List (String × Nat))
    (q : String × Nat) (post : List (String × Nat))
    (hpre : ∀ p ∈ pre, pyStartswith path (rootPfx p.1) = false)
    (hq : pyStartswith path (rootPfx q.1) = true) :
    updateRoots path (pre ++ q :: post) = (some q.1, pre ++ (q.1, q.2 + 1) :: post) := by
  induction pre with
  | nil =>
    obtain ⟨q1, q2⟩ := q
    simp only [List.nil_append]
    simp [updateRoots, hq]
  | cons p pres ih =>
    obtain ⟨p1, p2⟩ := p
    have hp : pyStartswith path (rootPfx p1) = false := hpre (p1, p2) (by simp)
    have ih' := ih (fun x hx => hpre x (by simp [hx]))
    simp [updateRoots, hp, ih']

/-- Records outside the configured subdirectory are skipped with no effect
(db_dump.py:222-223). -/
theorem processRecord_not_subdir (fre : Option (String → Bool)) (cfg : RunCfg)
    (st : LoopState) (r : Record)
    (h : pyStartswith r.name cfg.subdir = false) :
    processRecord fre cfg st r = (st, false) := by
  simp [processRecord, h]

/-- Records failing the configured pattern are skipped with no effect
(db_dump.py:225-227). -/
theorem processRecord_filtered (fre : Option (String → Bool)) (cfg : RunCfg)
    (st : LoopState) (r : Record)
    (h1 : pyStartswith r.name cfg.subdir = true)
    (h2 : filterPass fre r.name = false) :
    processRecord fre cfg st r = (st, false) := by
  simp [processRecord, h1, h2]

/-- Records matching the ignore list only bump `ignored_files`
(db_dump.py:229-231). -/
theorem processRecord_ignored (fre : Option (String → Bool)) (cfg : RunCfg)
    (st : LoopState) (r : Record)
    (h1 : pyStartswith r.name cfg.subdir = true)
    (h2 : filterPass fre r.name = true)
    (h3 : cfg.ignoreList.any (fun pre => pyStartswith r.name pre) = true) :
    processRecord fre cfg st r = ({ st with ignored_files := st.ignored_files + 1 }, false) := by
  simp [processRecord, h1, h2, h3]

/-- Records under no (truthy) root only carry the root-loop side effect
(db_dump.py:242-243). -/
theorem processRecord_noRoot (fre : Option (String → Bool)) (cfg : RunCfg)
    (st : LoopState) (r : Record)
    (h1 : pyStartswith r.name cfg.subdir = true)
    (h2 : filterPass fre r.name = true)
    (h3 : cfg.ignoreList.any (fun pre => pyStartswith r.name pre) = false)
    (h4 : truthyRoot (updateRoots r.name st.rootCounts).1 = false) :
    processRecord fre cfg st r
      = ({ st with rootCounts := (updateRoots r.name st.rootCounts).2 }, false) := by
  simp [processRecord, h1, h2, h3, h4]

/-- Accepted records: directory recorded, every matching group extended by
the formatted line, accepted count bumped, cap checked (db_dump.py:245-261). -/
theorem processRecord_accepted (fre : Option (String → Bool)) (cfg : RunCfg)
    (st : LoopState) (r : Record)
    (h1 : pyStartswith r.name cfg.subdir = true)
    (h2 : filterPass fre r.name = true)
    (h3 : cfg.ignoreList.any (fun pre => pyStartswith r.name pre) = false)
    (h4 : truthyRoot (updateRoots r.name st.rootCounts).1 = true) :
    processRecord fre cfg st r
      = ({ st with
            rootCounts := (updateRoots r.name st.rootCounts).2,
            dirs := addDir st.dirs (dirOf r.name),
            outputs := st.outputs.map (fun g =>
              if stateMatches r.state g.1 then
                (g.1, g.2 ++ [formatLine cfg.longOutput cfg.rseName r]) else g),
            ntotal := st.ntotal + 1 },
          match cfg.stopAfter with
          | some k => decide (k ≤ st.ntotal + 1)
          | none => false) := by
  simp [processRecord, h1, h2, h3, h4]

/-- One loop iteration never changes the key sequence of the counts mapping. -/
theorem processRecord_keys (fre : Option (String → Bool)) (cfg : RunCfg)
    (st : LoopState) (r : Record) :
    ((processRecord fre cfg st r).1).rootCounts.map Prod.fst
      = st.rootCounts.map Prod.fst := by
  cases h1 : pyStartswith r.name cfg.subdir
  · rw [processRecord_not_subdir _ _ _ _ h1]
  · cases h2 : filterPass fre r.name
    · rw [processRecord_filtered _ _ _ _ h1 h2]
    · cases h3 : cfg.ignoreList.any (fun pre => pyStartswith r.name pre)
      · cases h4 : truthyRoot (updateRoots r.name st.rootCounts).1
        · rw [processRecord_noRoot _ _ _ _ h1 h2 h3 h4]
          exact updateRoots_keys _ _
        · rw [processRecord_accepted _ _ _ _ h1 h2 h3 h4]
          exact updateRoots_keys _ _
      · rw [processRecord_ignored _ _ _ _ h1 h2 h3]

/-- The accepted count grows by one exactly on accepted records. -/
theorem processRecord_ntotal (fre : Option (String → Bool)) (cfg : RunCfg)
    (st : LoopState) (r : Record) :
    (processRecord fre cfg st r).1.ntotal
      = st.ntotal
        + (if acceptsRec fre cfg (st.rootCounts.map Prod.fst) r then 1 else 0) := by
  have hm : firstRootMatch (st.rootCounts.map Prod.fst) r.name
      = (updateRoots r.name st.rootCounts).1 := (updateRoots_matched _ _).symm
  cases h1 : pyStartswith r.name cfg.subdir
  · rw [processRecord_not_subdir _ _ _ _ h1]
    simp [acceptsRec, acceptsPath, h1]
  · cases h2 : filterPass fre r.name
    · rw [processRecord_filtered _ _ _ _ h1 h2]
      simp [acceptsRec, acceptsPath, h1, h2]
    · cases h3 : cfg.ignoreList.any (fun pre => pyStartswith r.name pre)
      · cases h4 : truthyRoot (updateRoots r.name st.rootCounts).1
        · rw [processRecord_noRoot _ _ _ _ h1 h2 h3 h4]
          simp [acceptsRec, acceptsPath, h1, h2, h3, hm, h4]
        · rw [processRecord_accepted _ _ _ _ h1 h2 h3 h4]
          simp [acceptsRec, acceptsPath, h1, h2, h3, hm, h4]
      · rw [processRecord_ignored _ _ _ _ h1 h2 h3]
        simp [acceptsRec, acceptsPath, h1, h2, h3]

/-- The cap `break` fires exactly on an accepted record that brings the
accepted count to the configured cap. -/
theorem processRecord_break (fre : Option (String → Bool)) (cfg : RunCfg)
    (st : LoopState) (r : Record) :
    (processRecord fre cfg st r).2
      = (acceptsRec fre cfg (st.rootCounts.map Prod.fst) r &&
          match cfg.stopAfter with
          | some k => decide (k ≤ st.ntotal + 1)
          | none => false) := by
  have hm : firstRootMatch (st.rootCounts.map Prod.fst) r.name
      = (updateRoots r.name st.rootCounts).1 := (updateRoots_matched _ _).symm
  cases h1 : pyStartswith r.name cfg.subdir
  · rw [processRecord_not_subdir _ _ _ _ h1]
    simp [acceptsRec, acceptsPath, h1]
  · cases h2 : filterPass fre r.name
    · rw [processRecord_filtered _ _ _ _ h1 h2]
      simp [acceptsRec, acceptsPath, h1, h2]
    · cases h3 : cfg.ignoreList.any (fun pre => pyStartswith r.name pre)
      · cases h4 : truthyRoot (updateRoots r.name st.rootCounts).1
        · rw [processRecord_noRoot _ _ _ _ h1 h2 h3 h4]
          simp [acceptsRec, acceptsPath, h1, h2, h3, hm, h4]
        · rw [processRecord_accepted _ _ _ _ h1 h2 h3 h4]
          simp [acceptsRec, acceptsPath, h1, h2, h3, hm, h4]
      · rw [processRecord_ignored _ _ _ _ h1 h2 h3]
        simp [acceptsRec, acceptsPath, h1, h2, h3]

/-- Output groups change exactly on accepted records, each matching group
getting the formatted line appended. -/
theorem processRecord_outputs (fre : Option (String → Bool)) (cfg : RunCfg)
    (st : LoopState) (r : Record) :
    (processRecord fre cfg st r).1.outputs
      = if acceptsRec fre cfg (st.rootCounts.map Prod.fst) r then
          st.outputs.map (fun g =>
            if stateMatches r.state g.1 then
              (g.1, g.2 ++ [formatLine cfg.longOutput cfg.rseName r]) else g)
        else st.outputs := by
  have hm : firstRootMatch (st.rootCounts.map Prod.fst) r.name
      = (updateRoots r.name st.rootCounts).1 := (updateRoots_matched _ _).symm
  cases h1 : pyStartswith r.name cfg.subdir
  · rw [processRecord_not_subdir _ _ _ _ h1]
    simp [acceptsRec, acceptsPath, h1]
  · cases h2 : filterPass fre r.name
    · rw [processRecord_filtered _ _ _ _ h1 h2]
      simp [acceptsRec, acceptsPath, h1, h2]
    · cases h3 : cfg.ignoreList.any (fun pre => pyStartswith r.name pre)
      · cases h4 : truthyRoot (updateRoots r.name st.rootCounts).1
        · rw [processRecord_noRoot _ _ _ _ h1 h2 h3 h4]
          simp [acceptsRec, acceptsPath, h1, h2, h3, hm, h4]
        · rw [processRecord_accepted _ _ _ _ h1 h2 h3 h4]
          simp [acceptsRec, acceptsPath, h1, h2, h3, hm, h4]
      · rw [processRecord_ignored _ _ _ _ h1 h2 h3]
        simp [acceptsRec, acceptsPath, h1, h2, h3]

/-- Loop equation: the cap `break` ends the run after this record. -/
theorem runLoop_cons_break (fre : Option (String → Bool)) (cfg : RunCfg)
    (st : LoopState) (r : Record) (rs : List Record)
    (hb : (processRecord fre cfg st r).2 = true) :
    runLoop fre cfg st (r :: rs) = ((processRecord fre cfg st r).1, 1, true) := by
  simp [runLoop, hb]

/-- Loop equation: without a `break` the loop continues on the tail. -/
theorem runLoop_cons_cont (fre : Option (String → Bool)) (cfg : RunCfg)
    (st : LoopState) (r : Record) (rs : List Record)
    (hb : (processRecord fre cfg st r).2 = false) :
    runLoop fre cfg st (r :: rs)
      = ((runLoop fre cfg (processRecord fre cfg st r).1 rs).1,
         (runLoop fre cfg (processRecord fre cfg st r).1 rs).2.1 + 1,
         (runLoop fre cfg (processRecord fre cfg st r).1 rs).2.2) := by
  simp [runLoop, hb]

/-- The whole loop never changes the key sequence of the counts mapping. -/
theorem runLoop_keys (fre : Option (String → Bool)) (cfg : RunCfg) :
    ∀ (l : List Record) (st : LoopState),
      ((runLoop fre cfg st l).1).rootCounts.map Prod.fst
        = st.rootCounts.map Prod.fst := by
  intro l
  induction l with
  | nil => intro st; rfl
  | cons r rs ih =>
    intro st
    cases hb : (processRecord fre cfg st r).2
    · rw [runLoop_cons_cont _ _ _ _ _ hb]
      rw [ih]
      exact processRecord_keys _ _ _ _
    · rw [runLoop_cons_break _ _ _ _ _ hb]
      exact processRecord_keys _ _ _ _

/-- The loop consumes at most the whole stream. -/
theorem runLoop_consumed_le (fre : Option (String → Bool)) (cfg : RunCfg) :
    ∀ (l : List Record) (st : LoopState),
      (runLoop fre cfg st l).2.1 ≤ l.length := by
  intro l
  induction l with
  | nil => intro st; simp [runLoop]
  | cons r rs ih =>
    intro st
    cases hb : (processRecord fre cfg st r).2
    · rw [runLoop_cons_cont _ _ _ _ _ hb]
      have := ih (processRecord fre cfg st r).1
      simp only [List.length_cons]
      omega
    · rw [runLoop_cons_break _ _ _ _ _ hb]
      simp

/-- Without a cap `break` the loop consumes the whole stream. -/
theorem runLoop_noBreak (fre : Option (String → Bool)) (cfg : RunCfg) :
    ∀ (l : List Record) (st : LoopState),
      (runLoop fre cfg st l).2.2 = false → (runLoop fre cfg st l).2.1 = l.length := by
  intro l
  induction l with
  | nil => intro st _; rfl
  | cons r rs ih =>
    intro st h
    cases hb : (processRecord fre cfg st r).2
    · rw [runLoop_cons_cont _ _ _ _ _ hb] at h ⊢
      have := ih (processRecord fre cfg st r).1 h
      simp only [List.length_cons]
      omega
    · rw [runLoop_cons_break _ _ _ _ _ hb] at h
      simp at h

/-- Cap enforcement at loop level: starting below the cap `K` with at least
`K - ntotal` accepted records ahead, the loop `break`s with total accepted
exactly `K`, having consumed a prefix holding exactly `K - ntotal` accepted
records, the last consumed record being accepted. -/
theorem runLoop_cap (fre : Option (String → Bool)) (cfg : RunCfg) (roots : List String)
    (K : Nat) (hK : cfg.stopAfter = some K) :
    ∀ (l : List Record) (st : LoopState),
      st.rootCounts.map Prod.fst = roots →
      st.ntotal < K →
      K - st.ntotal ≤ countAccepted fre cfg roots l →
      ∃ st' n, runLoop fre cfg st l = (st', n, true) ∧
        st'.ntotal = K ∧
        countAccepted fre cfg roots (l.take n) = K - st.ntotal ∧
        ∃ pres rec, l.take n = pres ++ [rec] ∧ acceptsRec fre cfg roots rec = true := by
  intro l
  induction l with
  | nil =>
    intro st _ hlt hcnt
    exfalso
    simp [countAccepted] at hcnt
    omega
  | cons r rs ih =>
    intro st hkeys hlt hcnt
    have hnt : (processRecord fre cfg st r).1.ntotal
        = st.ntotal + (if acceptsRec fre cfg roots r then 1 else 0) := by
      rw [processRecord_ntotal, hkeys]
    have hbrk : (processRecord fre cfg st r).2
        = (acceptsRec fre cfg roots r && decide (K ≤ st.ntotal + 1)) := by
      rw [processRecord_break, hkeys, hK]
    have hkeys' : (processRecord fre cfg st r).1.rootCounts.map Prod.fst = roots := by
      rw [processRecord_keys]; exact hkeys
    cases hacc : acceptsRec fre cfg roots r
    · have hb : (processRecord fre cfg st r).2 = false := by
        rw [hbrk, hacc]; rfl
      have hnt0 : (processRecord fre cfg st r).1.ntotal = st.ntotal := by
        rw [hnt, hacc]; simp
      have hceq : countAccepted fre cfg roots (r :: rs)
          = countAccepted fre cfg roots rs := by
        simp [countAccepted, List.countP_cons, hacc]
      obtain ⟨st', n, hrun, hnK, hcons, pres, rec, htake, hra⟩ :=
        ih (processRecord fre cfg st r).1 hkeys' (by omega)
          (by rw [hnt0]; omega)
      refine ⟨st', n + 1, ?_, hnK, ?_, r :: pres, rec, ?_, hra⟩
      · rw [runLoop_cons_cont _ _ _ _ _ hb, hrun]
      · rw [List.take_succ_cons]
        have : countAccepted fre cfg roots (r :: rs.take n)
            = countAccepted fre cfg roots (rs.take n) := by
          simp [countAccepted, List.countP_cons, hacc]
        rw [this, hcons, hnt0]
      · rw [List.take_succ_cons, htake]
        simp
    · by_cases hKe : K ≤ st.ntotal + 1
      · have hKeq : K = st.ntotal + 1 := by omega
        have hb : (processRecord fre cfg st r).2 = true := by
          rw [hbrk, hacc]
          simp [hKe]
        refine ⟨(processRecord fre cfg st r).1, 1, ?_, ?_, ?_, [], r, ?_, hacc⟩
        · exact runLoop_cons_break _ _ _ _ _ hb
        · rw [hnt, hacc]; simp; omega
        · rw [List.take_succ_cons, List.take_zero]
          simp [countAccepted, List.countP_cons, hacc]
          omega
        · simp [List.take_succ_cons]
      · have hb : (processRecord fre cfg st r).2 = false := by
          rw [hbrk, hacc]
          simp [hKe]
        have hnt1 : (processRecord fre cfg st r).1.ntotal = st.ntotal + 1 := by
          rw [hnt, hacc]; simp
        have hceq : countAccepted fre cfg roots (r :: rs)
            = countAccepted fre cfg roots rs + 1 := by
          simp [countAccepted, List.countP_cons, hacc]
        obtain ⟨st', n, hrun, hnK, hcons, pres, rec, htake, hra⟩ :=
          ih (processRecord fre cfg st r).1 hkeys' (by omega) (by rw [hnt1]; omega)
        refine ⟨st', n + 1, ?_, hnK, ?_, r :: pres, rec, ?_, hra⟩
        · rw [runLoop_cons_cont _ _ _ _ _ hb, hrun]
        · rw [List.take_succ_cons]
          have : countAccepted fre cfg roots (r :: rs.take n)
              = countAccepted fre cfg roots (rs.take n) + 1 := by
            simp [countAccepted, List.countP_cons, hacc]
          rw [this, hcons, hnt1]
          omega
        · rw [List.take_succ_cons, htake]
          simp

/-- Unfolding of the per-group line list on a cons. -/
theorem emitted_cons (fre : Option (String → Bool)) (cfg : RunCfg) (roots : List String)
    (spec : String) (r : Record) (l : List Record) :
    emitted fre cfg roots spec (r :: l)
      = if acceptsRec fre cfg roots r && stateMatches r.state spec
        then formatLine cfg.longOutput cfg.rseName r :: emitted fre cfg roots spec l
        else emitted fre cfg roots spec l := by
  simp only [emitted, List.filter_cons]
  split <;> simp

/-- Output characterization of the whole loop: each group's lines grow by
exactly the formatted lines of the accepted, state-matching records among
the consumed prefix, in arrival order. -/
theorem runLoop_outputs (fre : Option (String → Bool)) (cfg : RunCfg) (roots : List String) :
    ∀ (l : List Record) (st : LoopState),
      st.rootCounts.map Prod.fst = roots →
      ((runLoop fre cfg st l).1).outputs
        = st.outputs.map (fun g =>
            (g.1, g.2 ++ emitted fre cfg roots g.1 (l.take (runLoop fre cfg st l).2.1))) := by
  intro l
  induction l with
  | nil =>
    intro st _
    simp [runLoop, emitted]
  | cons r rs ih =>
    intro st hkeys
    have hout := processRecord_outputs fre cfg st r
    rw [hkeys] at hout
    cases hb : (processRecord fre cfg st r).2
    · have ih' := ih (processRecord fre cfg st r).1
        (by rw [processRecord_keys]; exact hkeys)
      rw [runLoop_cons_cont _ _ _ _ _ hb]
      simp only [List.take_succ_cons]
      rw [ih', hout]
      cases hacc : acceptsRec fre cfg roots r
      · simp only [Bool.false_eq_true, if_false]
        refine List.map_congr_left (fun g _ => ?_)
        rw [emitted_cons, hacc]
        simp
      · simp only [if_true, List.map_map]
        refine List.map_congr_left (fun g _ => ?_)
        cases hsm : stateMatches r.state g.1
        · simp [Function.comp, hsm, emitted_cons, hacc]
        · simp [Function.comp, hsm, emitted_cons, hacc]
    · have hacc : acceptsRec fre cfg roots r = true := by
        have h := processRecord_break fre cfg st r
        rw [hkeys] at h
        rw [h] at hb
        simp only [Bool.and_eq_true] at hb
        exact hb.1
      rw [runLoop_cons_break _ _ _ _ _ hb, hout, hacc]
      simp only [if_true, List.take_succ_cons, List.take_zero]
      refine List.map_congr_left (fun g _ => ?_)
      cases hsm : stateMatches r.state g.1
      · simp [hsm, emitted_cons, hacc, emitted]
      · simp [hsm, emitted_cons, hacc, emitted]

/-- Totality of the code-point order. -/
theorem charListLe_total : ∀ (a b : List Char),
    charListLe a b = true ∨ charListLe b a = true := by
  intro a
  induction a with
  | nil => intro b; left; rfl
  | cons x xs ih =>
    intro b
    cases b with
    | nil => right; rfl
    | cons y ys =>
      by_cases h1 : x < y
      · left; simp [charListLe, h1]
      · by_cases h2 : y < x
        · right; simp [charListLe, h2]
        · have hxy : x = y := le_antisymm (not_lt.mp h2) (not_lt.mp h1)
          subst hxy
          rcases ih ys with h | h
          · left; simp [charListLe, h]
          · right; simp [charListLe, h]

/-- Transitivity of the code-point order. -/
theorem charListLe_trans : ∀ (a b c : List Char),
    charListLe a b = true → charListLe b c = true → charListLe a c = true := by
  intro a
  induction a with
  | nil => intro b c _ _; rfl
  | cons x xs ih =>
    intro b c h1 h2
    cases b with
    | nil => simp [charListLe] at h1
    | cons y ys =>
      cases c with
      | nil => simp [charListLe] at h2
      | cons z zs =>
        by_cases hxy : x < y
        · by_cases hyz : y < z
          · simp [charListLe, lt_trans hxy hyz]
          · by_cases hzy : z < y
            · simp [charListLe, hyz, hzy] at h2
            · have : y = z := le_antisymm (not_lt.mp hzy) (not_lt.mp hyz)
              subst this
              simp [charListLe, hxy]
        · by_cases hyx : y < x
          · simp [charListLe, hxy, hyx] at h1
          · have hxyeq : x = y := le_antisymm (not_lt.mp hyx) (not_lt.mp hxy)
            subst hxyeq
            simp only [charListLe, lt_irrefl, if_false] at h1
            by_cases hxz : x < z
            · simp [charListLe, hxz]
            · by_cases hzx : z < x
              · simp [charListLe, hxz, hzx] at h2
              · have : x = z := le_antisymm (not_lt.mp hzx) (not_lt.mp hxz)
                subst this
                simp only [charListLe, lt_irrefl, if_false] at h2 ⊢
                exact ih ys zs h1 h2

/-- Sorted insertion yields a permutation of the cons. -/
theorem insertSorted_perm (p : String × Nat) :
    ∀ (l : List (String × Nat)), (insertSorted p l).Perm (p :: l) := by
  intro l
  induction l with
  | nil => exact List.Perm.refl _
  | cons q qs ih =>
    by_cases h : keyLe p q = true
    · simp [insertSorted, h]
    · have h' : keyLe p q = false := by
        cases hx : keyLe p q
        · rfl
        · exact absurd hx h
      simp only [insertSorted, h', Bool.false_eq_true, if_false]
      have hstep : (q :: insertSorted p qs).Perm (q :: p :: qs) := List.Perm.cons q ih
      exact hstep.trans (List.Perm.swap p q qs)

/-- The sorted report is a permutation of the root counts. -/
theorem sortByKey_perm : ∀ (l : List (String × Nat)), (sortByKey l).Perm l := by
  intro l
  induction l with
  | nil => exact List.Perm.refl _
  | cons p ps ih =>
    have h1 : sortByKey (p :: ps) = insertSorted p (sortByKey ps) := rfl
    rw [h1]
    exact (insertSorted_perm p (sortByKey ps)).trans (List.Perm.cons p ih)

/-- Sorted insertion preserves key-sortedness. -/
theorem insertSorted_pairwise (p : String × Nat) :
    ∀ (l : List (String × Nat)), l.Pairwise (fun a b => keyLe a b = true) →
      (insertSorted p l).Pairwise (fun a b => keyLe a b = true) := by
  intro l
  induction l with
  | nil => intro _; simp [insertSorted]
  | cons q qs ih =>
    intro hp
    rcases List.pairwise_cons.mp hp with ⟨hq, hqs⟩
    by_cases h : keyLe p q = true
    · simp only [insertSorted, h, if_true]
      refine List.pairwise_cons.mpr ⟨?_, hp⟩
      intro b hb
      rcases List.mem_cons.mp hb with hb | hb
      · exact hb ▸ h
      · exact charListLe_trans _ _ _ h (hq b hb)
    · have h' : keyLe p q = false := by
        cases hx : keyLe p q
        · rfl
        · exact absurd hx h
      have hqp : keyLe q p = true := by
        rcases charListLe_total p.1.data q.1.data with hx | hx
        · exact absurd hx (by simpa [keyLe] using h)
        · exact hx
      simp only [insertSorted, h', Bool.false_eq_true, if_false]
      refine List.pairwise_cons.mpr ⟨?_, ih hqs⟩
      intro b hb
      have hb' : b ∈ p :: qs := (insertSorted_perm p qs).mem_iff.mp hb
      rcases List.mem_cons.mp hb' with hb' | hb'
      · exact hb' ▸ hqp
      · exact hq b hb'

/-- The report emitted with `sort_keys=True` is key-sorted. -/
theorem sortByKey_pairwise : ∀ (l : List (String × Nat)),
    (sortByKey l).Pairwise (fun a b => keyLe a b = true) := by
  intro l
  induction l with
  | nil => simp [sortByKey]
  | cons p ps ih => exact insertSorted_pairwise p (sortByKey ps) ih

/-- The key list of the initial root counts is the configured root list
(first occurrences). -/
theorem initState_keys (cfg : RunCfg) :
    (initState cfg).rootCounts.map Prod.fst = dedupKeys cfg.rootList := by
  show ((dedupKeys cfg.rootList).map (fun root => (root, 0))).map Prod.fst
      = dedupKeys cfg.rootList
  rw [List.map_map]
  have hfi : (Prod.fst ∘ fun root => ((root : String), (0 : Nat))) = id := by
    funext x; rfl
  rw [hfi, List.map_id]

/-- C7: a record whose path does not start with the configured subdirectory
is skipped with no downstream effect whatsoever: `ignored_files`, the root
counters, the directory set, the accepted count and every output group are
all unchanged, and no cap `break` fires. -/
theorem C7_outside_subdir_no_effect (fre : Option (String → Bool)) (cfg : RunCfg)
    (st : LoopState) (r : Record)
    (h : pyStartswith r.name cfg.subdir = false) :
    (processRecord fre cfg st r).1.ignored_files = st.ignored_files ∧
    (processRecord fre cfg st r).1.rootCounts = st.rootCounts ∧
    (processRecord fre cfg st r).1.dirs = st.dirs ∧
    (processRecord fre cfg st r).1.ntotal = st.ntotal ∧
    (processRecord fre cfg st r).1.outputs = st.outputs ∧
    (processRecord fre cfg st r) = (st, false) := by
  rw [processRecord_not_subdir _ _ _ _ h]
  exact ⟨rfl, rfl, rfl, rfl, rfl, rfl⟩

/-- C7 witness: a record named `/b/x` under subdirectory `/a` is skipped
without any effect. -/
theorem C7_witness :
    pyStartswith (recT "/b/x" "A").name cfgT.subdir = false ∧
    processRecord none cfgT (initState cfgT) (recT "/b/x" "A") = (initState cfgT, false) :=
  ⟨by decide,
   (C7_outside_subdir_no_effect none cfgT (initState cfgT) (recT "/b/x" "A") (by decide)).2.2.2.2.2⟩

/-- C4: a record inside the subdirectory, passing the pattern filter but
matching an ignore-list prefix, increments `ignored_files` by exactly one
and changes nothing else: no output group is written, no root counter is
incremented, the directory set is not extended, the accepted count is
unchanged, and no cap `break` fires. -/
theorem C4_ignore_only_counter (fre : Option (String → Bool)) (cfg : RunCfg)
    (st : LoopState) (r : Record)
    (h1 : pyStartswith r.name cfg.subdir = true)
    (h2 : filterPass fre r.name = true)
    (h3 : cfg.ignoreList.any (fun pre => pyStartswith r.name pre) = true) :
    (processRecord fre cfg st r).1.ignored_files = st.ignored_files + 1 ∧
    (processRecord fre cfg st r).1.rootCounts = st.rootCounts ∧
    (processRecord fre cfg st r).1.dirs = st.dirs ∧
    (processRecord fre cfg st r).1.ntotal = st.ntotal ∧
    (processRecord fre cfg st r).1.outputs = st.outputs ∧
    (processRecord fre cfg st r).2 = false := by
  rw [processRecord_ignored _ _ _ _ h1 h2 h3]
  exact ⟨rfl, rfl, rfl, rfl, rfl, rfl⟩

/-- C4 witness: record `/a/skip/f` matches the ignore prefix `/a/skip`; only
`ignored_files` moves. -/
theorem C4_witness :
    pyStartswith (recT "/a/skip/f" "A").name cfgT.subdir = true ∧
    cfgT.ignoreList.any (fun pre => pyStartswith (recT "/a/skip/f" "A").name pre) = true ∧
    (processRecord none cfgT (initState cfgT) (recT "/a/skip/f" "A")).1.ignored_files
      = (initState cfgT).ignored_files + 1 ∧
    (processRecord none cfgT (initState cfgT) (recT "/a/skip/f" "A")).1.outputs
      = (initState cfgT).outputs :=
  ⟨by decide, by decide,
   (C4_ignore_only_counter none cfgT (initState cfgT) (recT "/a/skip/f" "A")
      (by decide) (by decide) (by decide)).1,
   (C4_ignore_only_counter none cfgT (initState cfgT) (recT "/a/skip/f" "A")
      (by decide) (by decide) (by decide)).2.2.2.2.1⟩

/-- C5: first-match-wins root accounting. (a) In the root loop, when no
earlier entry matches and `q` matches, exactly `q`'s counter is incremented
— later entries, even matching ones, are untouched, so declaration order
decides. (b) For every record surviving the subdirectory/pattern/ignore
steps the loop state's counts are exactly the root-loop update. (c) The
claim's own instance: roots `["/a", "/a/b"]` with path `/a/b/file`
increment `/a`, not `/a/b`. -/
theorem C5_root_tiebreak_declaration_order :
    (∀ (path : String) (pre : List (String × Nat)) (q : String × Nat)
        (post : List (String × Nat)),
      (∀ p ∈ pre, pyStartswith path (rootPfx p.1) = false) →
      pyStartswith path (rootPfx q.1) = true →
      updateRoots path (pre ++ q :: post) = (some q.1, pre ++ (q.1, q.2 + 1) :: post))
    ∧ (∀ (fre : Option (String → Bool)) (cfg : RunCfg) (st : LoopState) (r : Record),
        pyStartswith r.name cfg.subdir = true →
        filterPass fre r.name = true →
        cfg.ignoreList.any (fun pre => pyStartswith r.name pre) = false →
        (processRecord fre cfg st r).1.rootCounts = (updateRoots r.name st.rootCounts).2)
    ∧ updateRoots "/a/b/file" [("/a", 0), ("/a/b", 0)]
        = (some "/a", [("/a", 1), ("/a/b", 0)]) := by
  refine ⟨updateRoots_firstMatch, ?_, by decide⟩
  intro fre cfg st r h1 h2 h3
  cases h4 : truthyRoot (updateRoots r.name st.rootCounts).1
  · rw [processRecord_noRoot _ _ _ _ h1 h2 h3 h4]
  · rw [processRecord_accepted _ _ _ _ h1 h2 h3 h4]

/-- C5 witness: instantiation of the first-match rule at the claim's own
example, plus its loop-level consequence on a concrete accepted record. -/
theorem C5_witness :
    updateRoots "/a/b/file" [("/a", 5), ("/a/b", 7)] = (some "/a", [("/a", 6), ("/a/b", 7)]) ∧
    (processRecord none cfgT (initState cfgT) (recT "/a/b/file" "A")).1.rootCounts
      = [("/a", 1), ("/a/b", 0)] := by
  constructor
  · exact C5_root_tiebreak_declaration_order.1 "/a/b/file" [] ("/a", 5) [("/a/b", 7)]
      (by intro p hp; simp at hp) (by decide)
  · rw [C5_root_tiebreak_declaration_order.2.1 none cfgT (initState cfgT)
      (recT "/a/b/file" "A") (by decide) (by decide) (by decide)]
    decide

/-- C6: group independence — for an accepted record, every output group
whose state-spec contains the record's state (or is the wildcard) receives
the identical formatted line; membership in one group never suppresses
another. -/
theorem C6_group_independence (fre : Option (String → Bool)) (cfg : RunCfg)
    (st : LoopState) (r : Record)
    (h1 : pyStartswith r.name cfg.subdir = true)
    (h2 : filterPass fre r.name = true)
    (h3 : cfg.ignoreList.any (fun pre => pyStartswith r.name pre) = false)
    (h4 : truthyRoot (updateRoots r.name st.rootCounts).1 = true) :
    ∀ g ∈ st.outputs, stateMatches r.state g.1 = true →
      (g.1, g.2 ++ [formatLine cfg.longOutput cfg.rseName r])
        ∈ (processRecord fre cfg st r).1.outputs := by
  rw [processRecord_accepted _ _ _ _ h1 h2 h3 h4]
  intro g hg hsm
  exact List.mem_map.mpr ⟨g, hg, by simp [hsm]⟩

/-- C6 witness: a record with state `A` is written verbatim to both the
`AC` group and the wildcard group. -/
theorem C6_witness :
    (("AC", []) ∈ (initState cfgT).outputs ∧ stateMatches "A" "AC" = true ∧
      ("AC", [formatLine cfgT.longOutput cfgT.rseName (recT "/a/b/f" "A")])
        ∈ (processRecord none cfgT (initState cfgT) (recT "/a/b/f" "A")).1.outputs) ∧
    (("*", []) ∈ (initState cfgT).outputs ∧ stateMatches "A" "*" = true ∧
      ("*", [formatLine cfgT.longOutput cfgT.rseName (recT "/a/b/f" "A")])
        ∈ (processRecord none cfgT (initState cfgT) (recT "/a/b/f" "A")).1.outputs) := by
  constructor
  · refine ⟨by decide, by decide, ?_⟩
    have h := C6_group_independence none cfgT (initState cfgT) (recT "/a/b/f" "A")
      (by decide) (by decide) (by decide) (by decide) ("AC", []) (by decide) (by decide)
    simpa using h
  · refine ⟨by decide, by decide, ?_⟩
    have h := C6_group_independence none cfgT (initState cfgT) (recT "/a/b/f" "A")
      (by decide) (by decide) (by decide) (by decide) ("*", []) (by decide) (by decide)
    simpa using h

/-- C10: separator normalization. The subdirectory gets a trailing `/`
appended exactly when it lacks one; each root is normalized by the very
same rule before matching; consequently with subdirectory `/a` a record
named `/ab/x` is rejected outright, and the root `/a` does not match the
path `/ab/x` either. -/
theorem C10_separator_normalization :
    (∀ s, pyEndswith s "/" = false → normSubdir s = s ++ "/")
    ∧ (∀ s, pyEndswith s "/" = true → normSubdir s = s)
    ∧ (∀ root, rootPfx root = normSubdir root)
    ∧ (∀ (fre : Option (String → Bool)) (cfg : RunCfg) (st : LoopState) (r : Record),
        cfg.subdirRaw = "/a" → r.name = "/ab/x" →
        processRecord fre cfg st r = (st, false))
    ∧ firstRootMatch ["/a"] "/ab/x" = none := by
  refine ⟨?_, ?_, ?_, ?_, by decide⟩
  · intro s h; simp [normSubdir, h]
  · intro s h; simp [normSubdir, h]
  · intro root; rfl
  · intro fre cfg st r hc hr
    have hfalse : pyStartswith r.name cfg.subdir = false := by
      rw [hr]
      show pyStartswith "/ab/x" (normSubdir cfg.subdirRaw) = false
      rw [hc]
      decide
    exact processRecord_not_subdir _ _ _ _ hfalse

/-- C10 witness: the normalization equations and the rejection at the
claim's example input. -/
theorem C10_witness :
    normSubdir "/a" = "/a/" ∧ normSubdir "/a/" = "/a/" ∧ rootPfx "/a" = "/a/" ∧
    processRecord none { cfgT with subdirRaw := "/a" } (initState cfgT) (recT "/ab/x" "A")
      = (initState cfgT, false) :=
  ⟨by decide, by decide, by decide,
   C10_separator_normalization.2.2.2.1 none { cfgT with subdirRaw := "/a" }
     (initState cfgT) (recT "/ab/x" "A") rfl rfl⟩

/-- The loop body never reads the record's `path` column. -/
theorem processRecord_path_irrel (fre : Option (String → Bool)) (cfg : RunCfg)
    (st : LoopState) (r : Record) (p : String) :
    processRecord fre cfg st { r with path := p } = processRecord fre cfg st r := by
  cases r
  rfl

/-- The whole loop never reads the record's `path` column. -/
theorem runLoop_map_path (fre : Option (String → Bool)) (cfg : RunCfg)
    (f : Record → String) :
    ∀ (l : List Record) (st : LoopState),
      runLoop fre cfg st (l.map (fun r => { r with path := f r }))
        = runLoop fre cfg st l := by
  intro l
  induction l with
  | nil => intro st; rfl
  | cons r rs ih =>
    intro st
    have hpr : processRecord fre cfg st { r with path := f r }
        = processRecord fre cfg st r := processRecord_path_irrel fre cfg st r (f r)
    rw [List.map_cons]
    cases hb : (processRecord fre cfg st r).2
    · rw [runLoop_cons_cont _ _ _ _ _ (by rw [hpr]; exact hb),
          runLoop_cons_cont _ _ _ _ _ hb, hpr, ih]
    · rw [runLoop_cons_break _ _ _ _ _ (by rw [hpr]; exact hb),
          runLoop_cons_break _ _ _ _ _ hb, hpr]

/-- The normalized subdirectory is never the empty string. -/
theorem normSubdir_ne_nil (s : String) : (normSubdir s).data ≠ [] := by
  unfold normSubdir
  split
  · next h =>
    simp only [pyEndswith, decide_eq_true_eq] at h
    intro hd
    rcases h with ⟨t, ht⟩
    rw [hd] at ht
    simp at ht
  · next _ =>
    intro hd
    rw [String.data_append] at hd
    rcases List.append_eq_nil.mp hd with ⟨_, h2⟩
    exact absurd h2 (by decide)

/-- A record name that passed the subdirectory check is nonempty. -/
theorem accepted_name_nonempty (cfg : RunCfg) (r : Record)
    (h : pyStartswith r.name cfg.subdir = true) : (r.name == "") = false := by
  simp only [pyStartswith, decide_eq_true_eq] at h
  rcases h with ⟨t, ht⟩
  cases hnm : r.name == ""
  · rfl
  · exfalso
    have hname : r.name = "" := by simpa using hnm
    rw [hname] at ht
    have ht' : cfg.subdir.data ++ t = [] := ht
    rcases List.append_eq_nil.mp ht' with ⟨h1, _⟩
    exact normSubdir_ne_nil cfg.subdirRaw h1

/-- C9: the record's `path` column is never read. (a) Replacing the `path`
field of every record — by anything — leaves the entire observable run
outcome unchanged, for every configuration and fault point; the driver
routes by the `name` column alone. (b) Consequently in long-output mode the
third and fourth tab-separated fields of every emitted line are both the
`name` column, hence equal. -/
theorem C9_path_column_irrelevant :
    (∀ (cfg : RunCfg) (records : List Record) (fault : FaultSpec) (trace : String)
        (f : Record → String),
      runMain cfg (records.map (fun r => { r with path := f r })) fault trace
        = runMain cfg records fault trace)
    ∧ (∀ (cfg : RunCfg) (r : Record), pyStartswith r.name cfg.subdir = true →
        formatLine true cfg.rseName r
          = cfg.rseName ++ "\t" ++ r.scope ++ "\t" ++ r.name ++ "\t" ++ r.name
              ++ "\t" ++ r.state) := by
  constructor
  · intro cfg records fault trace f
    cases fault with
    | noFault =>
      simp only [runMain]
      rw [runLoop_map_path]
    | initBeforeIgnoreList => rfl
    | initAfterIgnoreList => rfl
    | runningAt i =>
      have htake : (records.map (fun r => { r with path := f r })).take i
          = (records.take i).map (fun r => { r with path := f r }) :=
        (List.map_take _ _ _).symm
      simp only [runMain, htake, runLoop_map_path, List.length_map]
  · intro cfg r h
    have hne := accepted_name_nonempty cfg r h
    simp [formatLine, orNull, hne]

/-- C9 witness: a concrete record stream with the `path` column overwritten
runs identically, and the concrete emitted long line repeats the name. -/
theorem C9_witness :
    runMain cfgT ([recT "/a/b/f" "A"].map (fun r => { r with path := "other" }))
        .noFault "tb"
      = runMain cfgT [recT "/a/b/f" "A"] .noFault "tb" ∧
    (pyStartswith (recT "/a/b/f" "A").name cfgT.subdir = true ∧
      formatLine true cfgT.rseName (recT "/a/b/f" "A")
        = cfgT.rseName ++ "\t" ++ (recT "/a/b/f" "A").scope ++ "\t"
            ++ (recT "/a/b/f" "A").name ++ "\t" ++ (recT "/a/b/f" "A").name
            ++ "\t" ++ (recT "/a/b/f" "A").state) :=
  ⟨C9_path_column_irrelevant.1 cfgT [recT "/a/b/f" "A"] .noFault "tb" (fun _ => "other"),
   by decide,
   C9_path_column_irrelevant.2 cfgT (recT "/a/b/f" "A") (by decide)⟩

/-- C1 (amended): the Partitioned Output Sets have `close()` invoked exactly
on the no-fault runs; on every faulting run — the fault striking during
INIT or at any point of RUNNING — the driver re-raises without closing any
output set (db_dump.py places the close loop inside the `try` body after
normal loop exit, with no `finally`). -/
theorem C1_close_iff_success (cfg : RunCfg) (records : List Record)
    (fault : FaultSpec) (trace : String) :
    (runMain cfg records fault trace).outputsClosed = true
      ↔ (runMain cfg records fault trace).raised = none := by
  cases fault with
  | noFault => simp [runMain, successOutcome]
  | initBeforeIgnoreList => simp [runMain]
  | initAfterIgnoreList => simp [runMain]
  | runningAt i =>
    simp only [runMain]
    split
    · simp [successOutcome]
    · simp

/-- C1 counterexample: a concrete run with two output sets constructed and
a fault at the first RUNNING iteration terminates with the fault propagated
and `close()` never invoked — refuting guaranteed release on the failure
path. -/
theorem C1_counterexample :
    cfgT.filters = [("AC", "/o1"), ("*", "/o2")] ∧
    (runMain cfgT [recT "/a/b/f" "A"] (.runningAt 0) "tb").raised = some .origFault ∧
    (runMain cfgT [recT "/a/b/f" "A"] (.runningAt 0) "tb").outputsClosed = false := by
  refine ⟨rfl, ?_, ?_⟩ <;> decide

/-- C2 (code bug, evaluated at the failing input): with a stats sink
configured, a fault inside the `try` block before `ignore_list` is bound
(db_dump.py:175) — e.g. a non-integer `-n` at line 167 or a missing
`DBDumpPathRoot` at line 172 — terminates with no `failed` stats update at
all (only the initial `started` one) and with a `NameError` from inside the
`except` block reaching the caller in place of the original fault. -/
theorem C2_handler_crash_on_early_fault :
    cfgT.statsConfigured = true ∧
    (runMain cfgT [] .initBeforeIgnoreList "trace").statsUpdates = [startedStats cfgT] ∧
    (∀ u ∈ (runMain cfgT [] .initBeforeIgnoreList "trace").statsUpdates,
      u.status ≠ "failed") ∧
    (runMain cfgT [] .initBeforeIgnoreList "trace").raised = some .nameError ∧
    (runMain cfgT [] .initBeforeIgnoreList "trace").raised ≠ some .origFault := by
  refine ⟨rfl, ?_, ?_, ?_, ?_⟩ <;> decide

/-- Report shape of a normal-termination outcome. -/
theorem successOutcome_report (cfg : RunCfg) (pre : List StatsUpdate)
    (res : LoopState × Nat × Bool)
    (hkeys : res.1.rootCounts.map Prod.fst = dedupKeys cfg.rootList) :
    ∃ st, (successOutcome cfg pre res).finalState = some st ∧
      st.rootCounts.map Prod.fst = dedupKeys cfg.rootList ∧
      (cfg.rootCountsConfigured = true →
        (successOutcome cfg pre res).rootReport = some (sortByKey st.rootCounts) ∧
        (sortByKey st.rootCounts).Pairwise (fun a b => keyLe a b = true) ∧
        (sortByKey st.rootCounts).Perm st.rootCounts) ∧
      (cfg.rootCountsConfigured = false →
        (successOutcome cfg pre res).rootReport = none) := by
  refine ⟨res.1, rfl, hkeys, ?_, ?_⟩
  · intro hrc
    exact ⟨by simp [successOutcome, hrc], sortByKey_pairwise _, sortByKey_perm _⟩
  · intro hrc
    simp [successOutcome, hrc]

/-- C8: the root-count report. On every faulting run no report is written;
on every no-fault (DONE) run with a report destination configured, the
report is exactly the final root counts re-ordered with deterministically
sorted keys (a key-sorted permutation of the counts mapping, whose key set
is the configured root list), and without the destination no report is
written. -/
theorem C8_sorted_root_report (cfg : RunCfg) (records : List Record)
    (fault : FaultSpec) (trace : String) :
    ((runMain cfg records fault trace).raised ≠ none →
      (runMain cfg records fault trace).rootReport = none)
    ∧ ((runMain cfg records fault trace).raised = none →
      ∃ st, (runMain cfg records fault trace).finalState = some st ∧
        st.rootCounts.map Prod.fst = dedupKeys cfg.rootList ∧
        (cfg.rootCountsConfigured = true →
          (runMain cfg records fault trace).rootReport = some (sortByKey st.rootCounts) ∧
          (sortByKey st.rootCounts).Pairwise (fun a b => keyLe a b = true) ∧
          (sortByKey st.rootCounts).Perm st.rootCounts) ∧
        (cfg.rootCountsConfigured = false →
          (runMain cfg records fault trace).rootReport = none)) := by
  cases fault with
  | noFault =>
    constructor
    · intro h; exact absurd rfl h
    · intro _
      exact successOutcome_report cfg _ _ (by rw [runLoop_keys]; exact initState_keys cfg)
  | initBeforeIgnoreList =>
    constructor
    · intro _; rfl
    · intro h; simp [runMain] at h
  | initAfterIgnoreList =>
    constructor
    · intro _; rfl
    · intro h; simp [runMain] at h
  | runningAt i =>
    simp only [runMain]
    split
    · constructor
      · intro h; exact absurd rfl h
      · intro _
        exact successOutcome_report cfg _ _ (by rw [runLoop_keys]; exact initState_keys cfg)
    · constructor
      · intro _; rfl
      · intro h; simp at h

/-- C8 witness: a concrete successful run writes the sorted report; the
same records with a RUNNING fault write none. -/
theorem C8_witness :
    ((runMain cfgT [recT "/a/b/f" "A"] .noFault "tb").raised = none ∧
      ∃ st, (runMain cfgT [recT "/a/b/f" "A"] .noFault "tb").finalState = some st ∧
        st.rootCounts.map Prod.fst = dedupKeys cfgT.rootList ∧
        (cfgT.rootCountsConfigured = true →
          (runMain cfgT [recT "/a/b/f" "A"] .noFault "tb").rootReport
              = some (sortByKey st.rootCounts) ∧
          (sortByKey st.rootCounts).Pairwise (fun a b => keyLe a b = true) ∧
          (sortByKey st.rootCounts).Perm st.rootCounts) ∧
        (cfgT.rootCountsConfigured = false →
          (runMain cfgT [recT "/a/b/f" "A"] .noFault "tb").rootReport = none)) ∧
    ((runMain cfgT [recT "/a/b/f" "A"] (.runningAt 0) "tb").raised ≠ none ∧
      (runMain cfgT [recT "/a/b/f" "A"] (.runningAt 0) "tb").rootReport = none) :=
  ⟨⟨by decide,
    (C8_sorted_root_report cfgT [recT "/a/b/f" "A"] .noFault "tb").2 (by decide)⟩,
   ⟨by decide,
    (C8_sorted_root_report cfgT [recT "/a/b/f" "A"] (.runningAt 0) "tb").1 (by decide)⟩⟩

/-- C3: cap enforcement. With a cap `K ≥ 1` and strictly more than `K`
accepted-eligible records in the stream, the run ends without error, the
loop `break`s strictly before the end of the stream immediately after the
`K`-th acceptance (the consumed prefix ends in an accepted record and holds
exactly `K` accepted ones), the final accepted total — and the `files`
field of the terminal `done` stats update — equals exactly `K`, while each
output group holds exactly the lines of those consumed records matching its
state-spec. -/
theorem C3_cap_enforcement (cfg : RunCfg) (records : List Record) (trace : String)
    (K : Nat) (hK : cfg.stopAfter = some K) (hpos : 1 ≤ K)
    (hmany : K < countAccepted none cfg (dedupKeys cfg.rootList) records) :
    (runMain cfg records .noFault trace).raised = none ∧
    (runMain cfg records .noFault trace).broke = true ∧
    (runMain cfg records .noFault trace).consumed < records.length ∧
    countAccepted none cfg (dedupKeys cfg.rootList)
      (records.take (runMain cfg records .noFault trace).consumed) = K ∧
    (∃ pres rec,
      records.take (runMain cfg records .noFault trace).consumed = pres ++ [rec] ∧
      acceptsRec none cfg (dedupKeys cfg.rootList) rec = true) ∧
    (∃ st, (runMain cfg records .noFault trace).finalState = some st ∧
      st.ntotal = K ∧
      (∀ f ∈ cfg.filters,
        (f.1, emitted none cfg (dedupKeys cfg.rootList) f.1
          (records.take (runMain cfg records .noFault trace).consumed)) ∈ st.outputs)) ∧
    (cfg.statsConfigured = true →
      ∃ u, (runMain cfg records .noFault trace).statsUpdates = [startedStats cfg, u] ∧
        u.status = "done" ∧ u.files = some K) := by
  obtain ⟨st', n, hrun, hnK, hcons, pres, rec, htake, hra⟩ :=
    runLoop_cap none cfg (dedupKeys cfg.rootList) K hK records (initState cfg)
      (initState_keys cfg)
      (by simp [initState]; omega)
      (by simp [initState]; omega)
  have hout : runMain cfg records .noFault trace
      = successOutcome cfg (if cfg.statsConfigured then [startedStats cfg] else [])
          (st', n, true) := by
    simp only [runMain, hrun]
  have hcons0 : countAccepted none cfg (dedupKeys cfg.rootList) (records.take n) = K := by
    rw [hcons]; simp [initState]
  have hconsumed : (runMain cfg records .noFault trace).consumed = n := by
    rw [hout]; rfl
  have hlt : n < records.length := by
    by_contra hge
    push_neg at hge
    rw [List.take_of_length_le hge] at hcons0
    omega
  refine ⟨by rw [hout]; rfl, by rw [hout]; rfl, ?_, ?_, ?_, ?_, ?_⟩
  · rw [hconsumed]; exact hlt
  · rw [hconsumed]; exact hcons0
  · exact ⟨pres, rec, by rw [hconsumed]; exact htake, hra⟩
  · refine ⟨st', by rw [hout]; rfl, hnK, ?_⟩
    intro f hf
    have hop : st'.outputs = (initState cfg).outputs.map (fun g =>
        (g.1, g.2 ++ emitted none cfg (dedupKeys cfg.rootList) g.1 (records.take n))) := by
      have h0 := runLoop_outputs none cfg (dedupKeys cfg.rootList) records (initState cfg)
        (initState_keys cfg)
      rw [hrun] at h0
      exact h0
    rw [hconsumed, hop]
    have hinit : (initState cfg).outputs = cfg.filters.map (fun f => (f.1, [])) := rfl
    rw [hinit, List.map_map]
    refine List.mem_map.mpr ⟨f, hf, ?_⟩
    simp [Function.comp]
  · intro hsc
    refine ⟨doneStats cfg st', ?_, rfl, ?_⟩
    · rw [hout]; simp [successOutcome, hsc]
    · simp [doneStats, hnK]

/-- C3 witness: cap 1 with two eligible records — the run stops after the
first acceptance, records `files = 1`, and consumes only one record. -/
theorem C3_witness :
    cfgT.stopAfter = some 1 ∧
    1 < countAccepted none cfgT (dedupKeys cfgT.rootList)
        [recT "/a/b/f1" "A", recT "/a/b/f2" "C"] ∧
    (runMain cfgT [recT "/a/b/f1" "A", recT "/a/b/f2" "C"] .noFault "tb").broke = true ∧
    (runMain cfgT [recT "/a/b/f1" "A", recT "/a/b/f2" "C"] .noFault "tb").consumed < 2 ∧
    countAccepted none cfgT (dedupKeys cfgT.rootList)
      ([recT "/a/b/f1" "A", recT "/a/b/f2" "C"].take
        (runMain cfgT [recT "/a/b/f1" "A", recT "/a/b/f2" "C"] .noFault "tb").consumed) = 1 :=
  ⟨rfl, by decide,
   (C3_cap_enforcement cfgT [recT "/a/b/f1" "A", recT "/a/b/f2" "C"] "tb" 1
      rfl (by decide) (by decide)).2.1,
   (C3_cap_enforcement cfgT [recT "/a/b/f1" "A", recT "/a/b/f2" "C"] "tb" 1
      rfl (by decide) (by decide)).2.2.1,
   (C3_cap_enforcement cfgT [recT "/a/b/f1" "A", recT "/a/b/f2" "C"] "tb" 1
      rfl (by decide) (by decide)).2.2.2.1⟩

